import Mathlib

/-!
Verification of the hub75-framebuffer core: a shallow embedding of the
latched `DmaFrameBuffer` (src/latched.rs), the sizing helpers (src/lib.rs)
and the tiling remap layer (src/tiling.rs), together with theorems settling
the specification claims.

Bytes (`u8` words) are modelled as `ℕ`; all operations keep values below
256 on the meaningful domain.  Arrays become total functions `ℕ → _` whose
indices are constrained by the theorems' hypotheses (the Rust code panics
on out-of-bounds indices, which no claim exercises).  The `esp32-ordering`
build feature is kept as an explicit boolean parameter `esp32`; the
repository's default build corresponds to `esp32 = false`.
-/

namespace Hub75

/-- Column/byte permutation `map_index` from src/latched.rs: with the
esp32-ordering feature the index is XORed with 2 (bytes leave in the order
2, 3, 0, 1); without it, the identity. -/
def map_index (esp32 : Bool) (index : ℕ) : ℕ :=
  if esp32 then index ^^^ 2 else index

/-- Entry::COLOR0_MASK — bits 0-2 (R1, G1, B1). -/
def COLOR0_MASK : ℕ := 0x07

/-- Entry::COLOR1_MASK — bits 3-5 (R2, G2, B2). -/
def COLOR1_MASK : ℕ := 0x38

/-- Entry::set_color0_bits: `self.0 = (self.0 & !COLOR0_MASK) | (bits & COLOR0_MASK)`
on a u8 (`!0x07 = 0xF8` in 8 bits). -/
def set_color0_bits (w bits : ℕ) : ℕ := (w &&& 0xF8) ||| (bits &&& COLOR0_MASK)

/-- Entry::set_color1_bits: `self.0 = (self.0 & !COLOR1_MASK) | ((bits << 3) & COLOR1_MASK)`
on a u8 (`!0x38 = 0xC7` in 8 bits). -/
def set_color1_bits (w bits : ℕ) : ℕ := (w &&& 0xC7) ||| ((bits <<< 3) &&& COLOR1_MASK)

/-- Row<COLS>: COLS data words (`Entry`, u8) and 4 address words (`Address`, u8),
each array modelled as a total function; only indices below COLS (resp. 4) are
meaningful. -/
@[ext]
structure Row where
  data : ℕ → ℕ
  address : ℕ → ℕ

/-- Address word stored by `make_addr_table` at physical slot `j` of the row
for address `addr`: the table writes `latch_bit | addr` at `map_index i` for
each logical `i < 4`, with `latch = (i ≠ 3)` and `latch_bit = 1 << 6`.  Since
`map_index` is an involution, the logical index of physical slot `j` is
`map_index j`. -/
def addrTableWord (esp32 : Bool) (addr j : ℕ) : ℕ :=
  (if map_index esp32 j ≠ 3 then 64 else 0) ||| addr

/-- Data word stored by `make_data_template` at physical slot `j`: the template
writes `0` (OE clear) at `map_index i` for the last logical column `i = COLS-1`
and `0b1000_0000` (OE set) elsewhere. -/
def dataTemplateWord (COLS : ℕ) (esp32 : Bool) (j : ℕ) : ℕ :=
  if map_index esp32 j = COLS - 1 then 0 else 128

/-- Row::format: copies the precomputed address table row for `addr` over the
4 address words and the data template over the COLS data words.
(The Rust code indexes `ADDR_TABLE[addr]`, so `addr < 32` on the panic-free
domain.) -/
def rowFormat (COLS : ℕ) (esp32 : Bool) (addr : ℕ) (row : Row) : Row where
  data := fun j => if j < COLS then dataTemplateWord COLS esp32 j else row.data j
  address := fun j => if j < 4 then addrTableWord esp32 addr j else row.address j

/-- Row::clear_colors: `entry.0 &= !0b0011_1111` (i.e. `&&& 0xC0`) for every
data word; address words untouched. -/
def rowClearColors (COLS : ℕ) (row : Row) : Row where
  data := fun j => if j < COLS then row.data j &&& 0xC0 else row.data j
  address := row.address

/-- Packed color bits `(u8::from(b) << 2) | (u8::from(g) << 1) | u8::from(r)`
built by Row::set_color0 / set_color1. -/
def colorBits (r g b : Bool) : ℕ :=
  ((cond b 1 0) <<< 2) ||| ((cond g 1 0) <<< 1) ||| (cond r 1 0)

/-- Row::set_color0: updates the data word at physical index `map_index col`
with `set_color0_bits`. -/
def rowSetColor0 (esp32 : Bool) (col : ℕ) (r g b : Bool) (row : Row) : Row where
  data := Function.update row.data (map_index esp32 col)
    (set_color0_bits (row.data (map_index esp32 col)) (colorBits r g b))
  address := row.address

/-- Row::set_color1: updates the data word at physical index `map_index col`
with `set_color1_bits`. -/
def rowSetColor1 (esp32 : Bool) (col : ℕ) (r g b : Bool) (row : Row) : Row where
  data := Function.update row.data (map_index esp32 col)
    (set_color1_bits (row.data (map_index esp32 col)) (colorBits r g b))
  address := row.address

/-- Frame<ROWS, COLS, NROWS>: NROWS rows, modelled as a total function. -/
@[ext]
structure Frame where
  rows : ℕ → Row

/-- Frame::format: formats each row `r < NROWS` with address `r`. -/
def frameFormat (COLS NROWS : ℕ) (esp32 : Bool) (f : Frame) : Frame where
  rows := fun r => if r < NROWS then rowFormat COLS esp32 r (f.rows r) else f.rows r

/-- Frame::clear_colors: clears the color bits of every row below NROWS. -/
def frameClearColors (COLS NROWS : ℕ) (f : Frame) : Frame where
  rows := fun r => if r < NROWS then rowClearColors COLS (f.rows r) else f.rows r

/-- Frame::set_pixel: picks row `y` (upper half, `set_color0`) when `y < NROWS`
and row `y - NROWS` (lower half, `set_color1`) otherwise. -/
def frameSetPixel (NROWS : ℕ) (esp32 : Bool) (y x : ℕ) (red green blue : Bool)
    (f : Frame) : Frame :=
  let idx := if y < NROWS then y else y - NROWS
  { rows := fun r =>
      if r = idx then
        if y < NROWS then rowSetColor0 esp32 x red green blue (f.rows r)
        else rowSetColor1 esp32 x red green blue (f.rows r)
      else f.rows r }

/-- 8-bit RGB color (`Rgb888`); each channel is a u8 value. -/
structure Color where
  r : ℕ
  g : ℕ
  b : ℕ

/-- DmaFrameBuffer<ROWS, COLS, NROWS, BITS, FRAME_COUNT>: FRAME_COUNT frames. -/
@[ext]
structure DmaFrameBuffer where
  frames : ℕ → Frame

/-- Zero-initialized row (all words 0), as produced by Row::new. -/
def zeroRow : Row where
  data := fun _ => 0
  address := fun _ => 0

/-- Zero-initialized frame, as produced by Frame::new. -/
def zeroFrame : Frame where
  rows := fun _ => zeroRow

/-- Zero-initialized buffer (`[Frame::new(); FRAME_COUNT]`). -/
def zeroBuffer : DmaFrameBuffer where
  frames := fun _ => zeroFrame

/-- DmaFrameBuffer::format: formats every frame below FRAME_COUNT. -/
def fbFormat (COLS NROWS FRAME_COUNT : ℕ) (esp32 : Bool) (fb : DmaFrameBuffer) :
    DmaFrameBuffer where
  frames := fun n =>
    if n < FRAME_COUNT then frameFormat COLS NROWS esp32 (fb.frames n) else fb.frames n

/-- DmaFrameBuffer::new: a zeroed buffer followed by `format()`. -/
def fbNew (COLS NROWS FRAME_COUNT : ℕ) (esp32 : Bool) : DmaFrameBuffer :=
  fbFormat COLS NROWS FRAME_COUNT esp32 zeroBuffer

/-- DmaFrameBuffer::erase: `clear_colors` on every frame below FRAME_COUNT. -/
def fbErase (COLS NROWS FRAME_COUNT : ℕ) (fb : DmaFrameBuffer) : DmaFrameBuffer where
  frames := fun n =>
    if n < FRAME_COUNT then frameClearColors COLS NROWS (fb.frames n) else fb.frames n

/-- DmaFrameBuffer::frames_on: `(v as usize) >> (8 - BITS)`. -/
def frames_on (BITS v : ℕ) : ℕ := v >>> (8 - BITS)

/-- DmaFrameBuffer::set_pixel_internal: silently returns when `x ≥ COLS` or
`y ≥ ROWS`; otherwise sets the pixel in every frame `n < FRAME_COUNT` with each
channel on iff `n` is below that channel's `frames_on` count.  (The default
build has the skip-black-pixels feature disabled, so no black early-out.) -/
def setPixelInternal (ROWS COLS NROWS BITS FRAME_COUNT : ℕ) (esp32 : Bool)
    (x y : ℕ) (color : Color) (fb : DmaFrameBuffer) : DmaFrameBuffer :=
  if COLS ≤ x ∨ ROWS ≤ y then fb
  else
    let red_frames := frames_on BITS color.r
    let green_frames := frames_on BITS color.g
    let blue_frames := frames_on BITS color.b
    { frames := fun n =>
        if n < FRAME_COUNT then
          frameSetPixel NROWS esp32 y x
            (decide (n < red_frames)) (decide (n < green_frames))
            (decide (n < blue_frames)) (fb.frames n)
        else fb.frames n }

/-- DmaFrameBuffer::set_pixel: silently returns when either coordinate is
negative, otherwise casts to usize and calls set_pixel_internal. -/
def setPixel (ROWS COLS NROWS BITS FRAME_COUNT : ℕ) (esp32 : Bool)
    (p : ℤ × ℤ) (color : Color) (fb : DmaFrameBuffer) : DmaFrameBuffer :=
  if p.1 < 0 ∨ p.2 < 0 then fb
  else setPixelInternal ROWS COLS NROWS BITS FRAME_COUNT esp32
    p.1.toNat p.2.toNat color fb

/-- Cast `i32 as usize` on a 64-bit target: sign-extend and reinterpret,
i.e. the value modulo 2^64. -/
def usizeOfI32 (x : ℤ) : ℕ := (x % (2 : ℤ) ^ 64).toNat

/-- Error type of the drawing contract (`core::convert::Infallible`),
an uninhabited type. -/
def Infallible := Empty

/-- DmaFrameBuffer::draw_iter: folds set_pixel_internal over the pixel list
(each coordinate cast `as usize` with no negativity check) and returns Ok. -/
def drawIter (ROWS COLS NROWS BITS FRAME_COUNT : ℕ) (esp32 : Bool)
    (pixels : List ((ℤ × ℤ) × Color)) (fb : DmaFrameBuffer) :
    Except Infallible DmaFrameBuffer :=
  Except.ok (pixels.foldl
    (fun acc px =>
      setPixelInternal ROWS COLS NROWS BITS FRAME_COUNT esp32
        (usizeOfI32 px.1.1) (usizeOfI32 px.1.2) px.2 acc)
    fb)

/-- Row index inside a frame addressed by panel row `y`
(`if y < NROWS { y } else { y - NROWS }`). -/
def subRowIndex (NROWS y : ℕ) : ℕ := if y < NROWS then y else y - NROWS

/-- Red channel bit of the sub-pixel for panel coordinate (x, y) in a frame:
bit R1 (bit 0) of the data word at `map_index x` for the upper half,
bit R2 (bit 3) for the lower half — the Entry bit layout of src/latched.rs. -/
def pixelRed (NROWS : ℕ) (esp32 : Bool) (f : Frame) (y x : ℕ) : Bool :=
  let w := (f.rows (subRowIndex NROWS y)).data (map_index esp32 x)
  if y < NROWS then w.testBit 0 else w.testBit 3

/-- Green channel bit of the sub-pixel for (x, y): G1 (bit 1) or G2 (bit 4). -/
def pixelGreen (NROWS : ℕ) (esp32 : Bool) (f : Frame) (y x : ℕ) : Bool :=
  let w := (f.rows (subRowIndex NROWS y)).data (map_index esp32 x)
  if y < NROWS then w.testBit 1 else w.testBit 4

/-- Blue channel bit of the sub-pixel for (x, y): B1 (bit 2) or B2 (bit 5). -/
def pixelBlue (NROWS : ℕ) (esp32 : Bool) (f : Frame) (y x : ℕ) : Bool :=
  let w := (f.rows (subRowIndex NROWS y)).data (map_index esp32 x)
  if y < NROWS then w.testBit 2 else w.testBit 5

/-- Address-word field `addr` (bits 4-0): the 5-bit row address. -/
def rowAddressField (w : ℕ) : ℕ := w &&& 0x1F

/-- Latch bit (bit 6) of an address or data word. -/
def latchBit (w : ℕ) : Bool := w.testBit 6

/-- Output-enable bit (bit 7) of an address or data word. -/
def outputEnableBit (w : ℕ) : Bool := w.testBit 7

/-- Word size declared to the transport layer (src/lib.rs `WordSize`). -/
inductive WordSize where
  | Eight
  | Sixteen
deriving DecidableEq

/-- Latched DmaFrameBuffer::get_word_size (src/latched.rs): `WordSize::Eight`. -/
def latchedGetWordSize : WordSize := WordSize.Eight

/-- TiledFrameBuffer::get_word_size (src/tiling.rs): returns
`WordSize::Sixteen` unconditionally, whatever framebuffer it wraps. -/
def tiledGetWordSize : WordSize := WordSize.Sixteen

/-- compute_rows (src/lib.rs): `rows / 2`. -/
def compute_rows (rows : ℕ) : ℕ := rows / 2

/-- compute_frame_count (src/lib.rs): `(1 << bits) - 1`. -/
def compute_frame_count (bits : ℕ) : ℕ := (1 <<< bits) - 1

/-- ChainTopRightDown::remap_xy (src/tiling.rs), with
`VIRT_COLS = PANEL_COLS * TILE_COLS` and
`FB_COLS = PANEL_COLS * TILE_ROWS * TILE_COLS`.  The usize subtractions are
modelled on ℕ; on the in-canvas domain they never underflow (see the claim
about band-index safety). -/
def remap_xy (PANEL_ROWS PANEL_COLS TILE_ROWS TILE_COLS x y : ℕ) : ℕ × ℕ :=
  let VIRT_COLS := PANEL_COLS * TILE_COLS
  let FB_COLS := PANEL_COLS * TILE_ROWS * TILE_COLS
  let row := TILE_ROWS - y / PANEL_ROWS - 1
  if row % 2 = 1 then
    (FB_COLS - x - row * VIRT_COLS - 1, PANEL_ROWS - 1 - y % PANEL_ROWS)
  else
    (row * VIRT_COLS + x, y % PANEL_ROWS)

/-- PixelRemapper::remap_point (src/tiling.rs): negative coordinates pass
through unmapped; otherwise remap_xy is applied and each result coordinate is
truncated `as u16` before being widened back to i32. -/
def remapPoint (PANEL_ROWS PANEL_COLS TILE_ROWS TILE_COLS : ℕ) (p : ℤ × ℤ) :
    ℤ × ℤ :=
  if p.1 < 0 ∨ p.2 < 0 then p
  else
    let q := remap_xy PANEL_ROWS PANEL_COLS TILE_ROWS TILE_COLS p.1.toNat p.2.toNat
    (((q.1 % 65536 : ℕ) : ℤ), ((q.2 % 65536 : ℕ) : ℤ))

/-- Underflow-freedom of the band-index computation
`TILE_ROWS - y / PANEL_ROWS - 1` in remap_xy: both usize subtractions stay in
range exactly when `y / PANEL_ROWS + 1 ≤ TILE_ROWS`. -/
def bandIndexSafe (PANEL_ROWS TILE_ROWS y : ℕ) : Prop :=
  y / PANEL_ROWS + 1 ≤ TILE_ROWS

instance (PR TR y : ℕ) : Decidable (bandIndexSafe PR TR y) := by
  unfold bandIndexSafe; infer_instance

/-- Virtual canvas of the tiled display: `0 ≤ x < PANEL_COLS*TILE_COLS`,
`0 ≤ y < PANEL_ROWS*TILE_ROWS`. -/
def virtCanvas (PANEL_ROWS PANEL_COLS TILE_ROWS TILE_COLS : ℕ) : Set (ℕ × ℕ) :=
  {p | p.1 < PANEL_COLS * TILE_COLS ∧ p.2 < PANEL_ROWS * TILE_ROWS}

/-- Physical framebuffer grid: `0 ≤ x < FB_COLS = PANEL_COLS*TILE_ROWS*TILE_COLS`,
`0 ≤ y < FB_ROWS = PANEL_ROWS`. -/
def fbGrid (PANEL_ROWS PANEL_COLS TILE_ROWS TILE_COLS : ℕ) : Set (ℕ × ℕ) :=
  {p | p.1 < PANEL_COLS * TILE_ROWS * TILE_COLS ∧ p.2 < PANEL_ROWS}

/-- Explicit inverse of remap_xy on the physical grid (used to establish the
bijection): recovers the x'-band `b = x' / VIRT_COLS` and inverts the straight
or mirrored branch according to the band's parity. -/
def remap_inv (PANEL_ROWS PANEL_COLS TILE_ROWS TILE_COLS : ℕ) (p : ℕ × ℕ) :
    ℕ × ℕ :=
  let VC := PANEL_COLS * TILE_COLS
  let b := p.1 / VC
  if b % 2 = 1 then (VC - 1 - p.1 % VC, b * PANEL_ROWS + (PANEL_ROWS - 1 - p.2))
  else (p.1 % VC, (TILE_ROWS - 1 - b) * PANEL_ROWS + p.2)

/-! ### Bit-level helper lemmas -/

lemma set_color0_bits_testBit_hi (w bits k : ℕ) (h3 : 3 ≤ k) (h8 : k < 8) :
    (set_color0_bits w bits).testBit k = w.testBit k := by
  unfold set_color0_bits COLOR0_MASK
  interval_cases k <;>
    simp [Nat.testBit_lor, Nat.testBit_land,
      (by decide : Nat.testBit 248 3 = true), (by decide : Nat.testBit 248 4 = true),
      (by decide : Nat.testBit 248 5 = true), (by decide : Nat.testBit 248 6 = true),
      (by decide : Nat.testBit 248 7 = true),
      (by decide : Nat.testBit 7 3 = false), (by decide : Nat.testBit 7 4 = false),
      (by decide : Nat.testBit 7 5 = false), (by decide : Nat.testBit 7 6 = false),
      (by decide : Nat.testBit 7 7 = false)]

lemma set_color1_bits_testBit_keep (w bits k : ℕ) (h8 : k < 8)
    (hk : k < 3 ∨ 6 ≤ k) :
    (set_color1_bits w bits).testBit k = w.testBit k := by
  unfold set_color1_bits COLOR1_MASK
  have hk8 : k = 0 ∨ k = 1 ∨ k = 2 ∨ k = 6 ∨ k = 7 := by omega
  rcases hk8 with h | h | h | h | h <;> subst h <;>
    simp [Nat.testBit_lor, Nat.testBit_land,
      (by decide : Nat.testBit 199 0 = true), (by decide : Nat.testBit 199 1 = true),
      (by decide : Nat.testBit 199 2 = true), (by decide : Nat.testBit 199 6 = true),
      (by decide : Nat.testBit 199 7 = true),
      (by decide : Nat.testBit 56 0 = false), (by decide : Nat.testBit 56 1 = false),
      (by decide : Nat.testBit 56 2 = false), (by decide : Nat.testBit 56 6 = false),
      (by decide : Nat.testBit 56 7 = false)]

lemma set_color0_bits_color (w : ℕ) (r g b : Bool) :
    (set_color0_bits w (colorBits r g b)).testBit 0 = r
    ∧ (set_color0_bits w (colorBits r g b)).testBit 1 = g
    ∧ (set_color0_bits w (colorBits r g b)).testBit 2 = b := by
  unfold set_color0_bits colorBits COLOR0_MASK
  cases r <;> cases g <;> cases b <;>
    refine ⟨?_, ?_, ?_⟩ <;>
    simp [Nat.testBit_lor, Nat.testBit_land,
      (by decide : Nat.testBit 248 0 = false), (by decide : Nat.testBit 248 1 = false),
      (by decide : Nat.testBit 248 2 = false)] <;>
    decide

lemma set_color1_bits_color (w : ℕ) (r g b : Bool) :
    (set_color1_bits w (colorBits r g b)).testBit 3 = r
    ∧ (set_color1_bits w (colorBits r g b)).testBit 4 = g
    ∧ (set_color1_bits w (colorBits r g b)).testBit 5 = b := by
  unfold set_color1_bits colorBits COLOR1_MASK
  cases r <;> cases g <;> cases b <;>
    refine ⟨?_, ?_, ?_⟩ <;>
    simp [Nat.testBit_lor, Nat.testBit_land,
      (by decide : Nat.testBit 199 3 = false), (by decide : Nat.testBit 199 4 = false),
      (by decide : Nat.testBit 199 5 = false)] <;>
    decide

lemma lt_frames_on_iff (BITS n v : ℕ) (h1 : 1 ≤ BITS) (h8 : BITS ≤ 8) :
    n < frames_on BITS v ↔ (n + 1) * (256 / 2 ^ BITS) ≤ v := by
  have hs : (256 : ℕ) / 2 ^ BITS = 2 ^ (8 - BITS) := by
    have h256 : (256 : ℕ) = 2 ^ 8 := by norm_num
    rw [h256, Nat.pow_div h8 (by norm_num)]
  have hpos : 0 < 2 ^ (8 - BITS) := Nat.pos_pow_of_pos _ (by norm_num)
  rw [hs]
  unfold frames_on
  rw [Nat.shiftRight_eq_div_pow]
  constructor
  · intro h
    exact (Nat.le_div_iff_mul_le hpos).1 h
  · intro h
    exact (Nat.le_div_iff_mul_le hpos).2 h

lemma land192_testBit_low (w k : ℕ) (hk : k < 6) :
    (w &&& 192).testBit k = false := by
  rw [Nat.testBit_land]
  interval_cases k <;>
    simp [(by decide : Nat.testBit 192 0 = false), (by decide : Nat.testBit 192 1 = false),
      (by decide : Nat.testBit 192 2 = false), (by decide : Nat.testBit 192 3 = false),
      (by decide : Nat.testBit 192 4 = false), (by decide : Nat.testBit 192 5 = false)]

lemma land192_testBit6 (w : ℕ) : (w &&& 192).testBit 6 = w.testBit 6 := by
  rw [Nat.testBit_land]
  simp [(by decide : Nat.testBit 192 6 = true)]

lemma land192_testBit7 (w : ℕ) : (w &&& 192).testBit 7 = w.testBit 7 := by
  rw [Nat.testBit_land]
  simp [(by decide : Nat.testBit 192 7 = true)]

lemma rowClearColors_idem (COLS : ℕ) (row : Row) :
    rowClearColors COLS (rowClearColors COLS row) = rowClearColors COLS row := by
  apply Row.ext
  · funext j
    by_cases hj : j < COLS <;>
      simp [rowClearColors, hj, Nat.land_assoc, (by decide : (192 : ℕ) &&& 192 = 192)]
  · rfl

lemma rowClearColors_format (COLS : ℕ) (esp32 : Bool) (addr : ℕ) (row : Row) :
    rowClearColors COLS (rowFormat COLS esp32 addr row)
      = rowFormat COLS esp32 addr row := by
  apply Row.ext
  · funext j
    by_cases hj : j < COLS
    · simp only [rowClearColors, rowFormat, if_pos hj]
      unfold dataTemplateWord
      split <;> decide
    · simp [rowClearColors, rowFormat, hj]
  · rfl

lemma frameClearColors_idem (COLS NROWS : ℕ) (f : Frame) :
    frameClearColors COLS NROWS (frameClearColors COLS NROWS f)
      = frameClearColors COLS NROWS f := by
  apply Frame.ext
  funext r
  by_cases hr : r < NROWS <;> simp [frameClearColors, hr, rowClearColors_idem]

lemma frameClearColors_format (COLS NROWS : ℕ) (esp32 : Bool) (f : Frame) :
    frameClearColors COLS NROWS (frameFormat COLS NROWS esp32 f)
      = frameFormat COLS NROWS esp32 f := by
  apply Frame.ext
  funext r
  by_cases hr : r < NROWS <;> simp [frameClearColors, frameFormat, hr, rowClearColors_format]

lemma map_index_false (j : ℕ) : map_index false j = j := rfl

lemma land31_of_lt (r : ℕ) (hr : r < 32) : r &&& 31 = r := by
  have h := Nat.and_pow_two_sub_one_eq_mod r 5
  norm_num at h
  rw [h]
  exact Nat.mod_eq_of_lt hr

lemma lor64_land31 (r : ℕ) (hr : r < 32) : (64 ||| r) &&& 31 = r := by
  apply Nat.eq_of_testBit_eq
  intro i
  rw [Nat.testBit_land, Nat.testBit_lor]
  by_cases hi : i < 5
  · interval_cases i <;>
      simp [(by decide : Nat.testBit 64 0 = false), (by decide : Nat.testBit 64 1 = false),
        (by decide : Nat.testBit 64 2 = false), (by decide : Nat.testBit 64 3 = false),
        (by decide : Nat.testBit 64 4 = false), (by decide : Nat.testBit 31 0 = true),
        (by decide : Nat.testBit 31 1 = true), (by decide : Nat.testBit 31 2 = true),
        (by decide : Nat.testBit 31 3 = true), (by decide : Nat.testBit 31 4 = true)]
  · have h31 : Nat.testBit 31 i = false := by
      refine Nat.testBit_lt_two_pow ?_
      calc (31 : ℕ) < 2 ^ 5 := by norm_num
        _ ≤ 2 ^ i := Nat.pow_le_pow_right (by norm_num) (by omega)
    have hrb : r.testBit i = false := by
      refine Nat.testBit_lt_two_pow (lt_of_lt_of_le hr ?_)
      calc (32 : ℕ) = 2 ^ 5 := by norm_num
        _ ≤ 2 ^ i := Nat.pow_le_pow_right (by norm_num) (by omega)
    simp [h31, hrb]

lemma lor64_testBit6 (r : ℕ) : (64 ||| r).testBit 6 = true := by
  rw [Nat.testBit_lor]
  simp [(by decide : Nat.testBit 64 6 = true)]

lemma testBit6_of_lt_32 (r : ℕ) (hr : r < 32) : r.testBit 6 = false :=
  Nat.testBit_lt_two_pow (lt_of_lt_of_le hr (by norm_num))

lemma dataTemplateWord_latch (COLS j : ℕ) (esp32 : Bool) :
    latchBit (dataTemplateWord COLS esp32 j) = false := by
  unfold latchBit dataTemplateWord
  split <;> decide

lemma dataTemplateWord_low (COLS j k : ℕ) (esp32 : Bool) (hk : k < 6) :
    (dataTemplateWord COLS esp32 j).testBit k = false := by
  unfold dataTemplateWord
  split <;> (interval_cases k <;> decide)

lemma dataTemplateWord_oe (COLS j : ℕ) :
    outputEnableBit (dataTemplateWord COLS false j) = false ↔ j = COLS - 1 := by
  unfold outputEnableBit dataTemplateWord map_index
  by_cases h : j = COLS - 1 <;> simp [h] <;> decide

/-! ### Claim theorems -/

/-- C3: `ChainTopRightDown::remap_xy` computes the band index
`row = TILE_ROWS - y/PANEL_ROWS - 1` and returns
`(row*VIRT_COLS + x, y mod PANEL_ROWS)` when `row` is even and
`(FB_COLS - x - row*VIRT_COLS - 1, PANEL_ROWS - 1 - y mod PANEL_ROWS)` when
`row` is odd; with PANEL_ROWS=32, PANEL_COLS=64, TILE_ROWS=3, TILE_COLS=3,
virtual (0,0) maps to physical (384,0) and virtual (0,95) maps to (0,31). -/
theorem C3_remap_xy_formula (PR PC TR TC x y : ℕ)
    (hx : x < PC * TC) (hy : y < PR * TR) :
    (∀ row, row = TR - y / PR - 1 →
      (row % 2 = 0 →
        remap_xy PR PC TR TC x y = (row * (PC * TC) + x, y % PR))
      ∧ (row % 2 = 1 →
        remap_xy PR PC TR TC x y
          = (PC * TR * TC - x - row * (PC * TC) - 1, PR - 1 - y % PR)))
    ∧ remap_xy 32 64 3 3 0 0 = (384, 0)
    ∧ remap_xy 32 64 3 3 0 95 = (0, 31) := by
  refine ⟨?_, by decide, by decide⟩
  intro row hrow
  constructor <;> intro hpar <;>
    · unfold remap_xy
      rw [← hrow]
      simp [hpar]

theorem C3_remap_xy_formula_witness :
    remap_xy 32 64 3 3 0 0 = (2 * (64 * 3) + 0, 0 % 32) :=
  ((C3_remap_xy_formula 32 64 3 3 0 0 (by decide) (by decide)).1 2
    (by decide)).1 (by decide)

/-- C8: the latched DmaFrameBuffer's `get_word_size` does return
`WordSize::Eight`, but `TiledFrameBuffer::get_word_size` returns
`WordSize::Sixteen` unconditionally — it does not forward to the wrapped
framebuffer — so a TiledFrameBuffer wrapping a latched buffer reports
Sixteen, not the wrapped buffer's Eight. -/
theorem C8_word_size_evaluation :
    latchedGetWordSize = WordSize.Eight
    ∧ tiledGetWordSize = WordSize.Sixteen
    ∧ tiledGetWordSize ≠ latchedGetWordSize :=
  ⟨rfl, rfl, by decide⟩

/-- C9: `Row::set_color0` updates only bits 0-2 of the data word at physical
index `map_index col` and `Row::set_color1` only bits 3-5 of that word; every
other data word, every other bit of that word, and the address words are left
unchanged. -/
theorem C9_set_color_isolation (esp32 : Bool) (col : ℕ) (r g b : Bool)
    (row : Row) :
    (∀ j, j ≠ map_index esp32 col →
      (rowSetColor0 esp32 col r g b row).data j = row.data j
      ∧ (rowSetColor1 esp32 col r g b row).data j = row.data j)
    ∧ (rowSetColor0 esp32 col r g b row).address = row.address
    ∧ (rowSetColor1 esp32 col r g b row).address = row.address
    ∧ (∀ k, k < 8 → 3 ≤ k →
      ((rowSetColor0 esp32 col r g b row).data (map_index esp32 col)).testBit k
        = (row.data (map_index esp32 col)).testBit k)
    ∧ (∀ k, k < 8 → k < 3 ∨ 6 ≤ k →
      ((rowSetColor1 esp32 col r g b row).data (map_index esp32 col)).testBit k
        = (row.data (map_index esp32 col)).testBit k) := by
  refine ⟨?_, rfl, rfl, ?_, ?_⟩
  · intro j hj
    exact ⟨Function.update_noteq hj _ _, Function.update_noteq hj _ _⟩
  · intro k h8 h3
    unfold rowSetColor0
    simp only [Function.update_same]
    exact set_color0_bits_testBit_hi _ _ k h3 h8
  · intro k h8 hk
    unfold rowSetColor1
    simp only [Function.update_same]
    exact set_color1_bits_testBit_keep _ _ k h8 hk

theorem C9_set_color_isolation_witness :
    (rowSetColor0 false 10 true false true zeroRow).address = zeroRow.address :=
  (C9_set_color_isolation false 10 true false true zeroRow).2.1

/-- C10: for any `y < PANEL_ROWS*TILE_ROWS` the band-index computation
`TILE_ROWS - y/PANEL_ROWS - 1` stays in range, and this bound is exactly the
underflow-free region; `remap_point` filters only negative coordinates, so any
point with nonnegative coordinates — including `y ≥ PANEL_ROWS*TILE_ROWS` —
reaches `remap_xy` (no silent clamp like DmaFrameBuffer::set_pixel). -/
theorem C10_band_index_underflow (PR PC TR TC : ℕ) (hPR : 1 ≤ PR) :
    (∀ y, bandIndexSafe PR TR y ↔ y < PR * TR)
    ∧ (∀ p : ℤ × ℤ, 0 ≤ p.1 → 0 ≤ p.2 →
        remapPoint PR PC TR TC p
          = ((((remap_xy PR PC TR TC p.1.toNat p.2.toNat).1 % 65536 : ℕ) : ℤ),
             (((remap_xy PR PC TR TC p.1.toNat p.2.toNat).2 % 65536 : ℕ) : ℤ)))
    ∧ (∀ p : ℤ × ℤ, p.1 < 0 ∨ p.2 < 0 → remapPoint PR PC TR TC p = p) := by
  refine ⟨?_, ?_, ?_⟩
  · intro y
    unfold bandIndexSafe
    rw [mul_comm]
    exact Nat.div_lt_iff_lt_mul hPR
  · intro p h1 h2
    unfold remapPoint
    rw [if_neg]
    push_neg
    exact ⟨h1, h2⟩
  · intro p h
    unfold remapPoint
    rw [if_pos h]

theorem C10_band_index_underflow_witness :
    bandIndexSafe 32 3 95 ↔ 95 < 32 * 3 :=
  (C10_band_index_underflow 32 64 3 3 (by decide)).1 95

/-- C6: `erase()` clears exactly the six color bits (bits 0-5) of every data
word of every frame, preserving each data word's latch and output-enable bits
and every address word; erase is idempotent, and `format()` followed by
`erase()` equals `format()` alone. -/
theorem C6_erase_clears_colors_idempotent
    (COLS NROWS FRAME_COUNT : ℕ) (esp32 : Bool) (fb : DmaFrameBuffer) :
    (∀ n < FRAME_COUNT, ∀ r < NROWS, ∀ j < COLS,
      (∀ k < 6,
        (((fbErase COLS NROWS FRAME_COUNT fb).frames n |>.rows r).data j).testBit k
          = false)
      ∧ latchBit (((fbErase COLS NROWS FRAME_COUNT fb).frames n |>.rows r).data j)
          = latchBit ((fb.frames n |>.rows r).data j)
      ∧ outputEnableBit
            (((fbErase COLS NROWS FRAME_COUNT fb).frames n |>.rows r).data j)
          = outputEnableBit ((fb.frames n |>.rows r).data j)
      ∧ ((fbErase COLS NROWS FRAME_COUNT fb).frames n |>.rows r).address
          = (fb.frames n |>.rows r).address)
    ∧ fbErase COLS NROWS FRAME_COUNT (fbErase COLS NROWS FRAME_COUNT fb)
        = fbErase COLS NROWS FRAME_COUNT fb
    ∧ fbErase COLS NROWS FRAME_COUNT (fbFormat COLS NROWS FRAME_COUNT esp32 fb)
        = fbFormat COLS NROWS FRAME_COUNT esp32 fb := by
  refine ⟨?_, ?_, ?_⟩
  · intro n hn r hr j hj
    have hw : ((fbErase COLS NROWS FRAME_COUNT fb).frames n |>.rows r).data j
        = (fb.frames n |>.rows r).data j &&& 192 := by
      simp [fbErase, frameClearColors, rowClearColors, hn, hr, hj]
    have ha : ((fbErase COLS NROWS FRAME_COUNT fb).frames n |>.rows r).address
        = (fb.frames n |>.rows r).address := by
      simp [fbErase, frameClearColors, rowClearColors, hn, hr]
    refine ⟨?_, ?_, ?_, ha⟩
    · intro k hk
      rw [hw]
      exact land192_testBit_low _ k hk
    · rw [hw]
      exact land192_testBit6 _
    · rw [hw]
      exact land192_testBit7 _
  · apply DmaFrameBuffer.ext
    funext n
    by_cases hn : n < FRAME_COUNT <;> simp [fbErase, hn, frameClearColors_idem]
  · apply DmaFrameBuffer.ext
    funext n
    by_cases hn : n < FRAME_COUNT <;>
      simp [fbErase, fbFormat, hn, frameClearColors_format]

theorem C6_erase_clears_colors_idempotent_witness :
    fbErase 64 16 7 (fbErase 64 16 7 zeroBuffer) = fbErase 64 16 7 zeroBuffer :=
  (C6_erase_clears_colors_idempotent 64 16 7 false zeroBuffer).2.1

/-- C5: after `format()` (hence after `new()`, which is format of a zeroed
buffer) in the default build, every frame's row `r < NROWS ≤ 32` has all 4
address words carrying row address `r`, exactly one of the 4 address words
with latch clear, exactly one of its COLS data words — the one for the last
logical column — with output-enable clear (all others set), and latch clear
with all six color bits clear in every data word. -/
theorem C5_format_control_invariants
    (COLS NROWS FRAME_COUNT : ℕ) (fb : DmaFrameBuffer)
    (hN : NROWS ≤ 32) (hC : 1 ≤ COLS) :
    ∀ n < FRAME_COUNT, ∀ r < NROWS,
      (∀ j < 4, rowAddressField
          (((fbFormat COLS NROWS FRAME_COUNT false fb).frames n |>.rows r).address j)
        = r)
      ∧ ((Finset.range 4).filter (fun j => latchBit
          (((fbFormat COLS NROWS FRAME_COUNT false fb).frames n |>.rows r).address j)
            = false)).card = 1
      ∧ ((Finset.range COLS).filter (fun j => outputEnableBit
          (((fbFormat COLS NROWS FRAME_COUNT false fb).frames n |>.rows r).data j)
            = false)).card = 1
      ∧ outputEnableBit
          (((fbFormat COLS NROWS FRAME_COUNT false fb).frames n |>.rows r).data
            (COLS - 1)) = false
      ∧ (∀ j < COLS, j ≠ COLS - 1 → outputEnableBit
          (((fbFormat COLS NROWS FRAME_COUNT false fb).frames n |>.rows r).data j)
            = true)
      ∧ (∀ j < COLS, latchBit
          (((fbFormat COLS NROWS FRAME_COUNT false fb).frames n |>.rows r).data j)
            = false
        ∧ ∀ k < 6,
          ((((fbFormat COLS NROWS FRAME_COUNT false fb).frames n |>.rows r).data j)).testBit k
            = false) := by
  intro n hn r hr
  have hr32 : r < 32 := by omega
  have hrw : ((fbFormat COLS NROWS FRAME_COUNT false fb).frames n).rows r
      = rowFormat COLS false r ((fb.frames n).rows r) := by
    simp [fbFormat, frameFormat, hn, hr]
  refine ⟨?_, ?_, ?_, ?_, ?_, ?_⟩
  · intro j hj
    simp only [hrw, rowFormat, if_pos hj]
    unfold rowAddressField addrTableWord
    rw [map_index_false]
    by_cases h3 : j = 3
    · rw [if_neg (by simp [h3])]
      simpa using land31_of_lt r hr32
    · rw [if_pos h3]
      exact lor64_land31 r hr32
  · have key : ∀ j ∈ Finset.range 4,
        (latchBit ((rowFormat COLS false r ((fb.frames n).rows r)).address j) = false
          ↔ j = 3) := by
      intro j hj
      rw [Finset.mem_range] at hj
      simp only [rowFormat, if_pos hj]
      unfold latchBit addrTableWord
      rw [map_index_false]
      by_cases h3 : j = 3
      · rw [if_neg (by simp [h3])]
        simp only [h3]
        simp [testBit6_of_lt_32 r hr32]
      · rw [if_pos h3, lor64_testBit6]
        simp [h3]
    simp only [hrw]
    rw [Finset.filter_congr key, Finset.filter_eq']
    simp
  · have key : ∀ j ∈ Finset.range COLS,
        (outputEnableBit ((rowFormat COLS false r ((fb.frames n).rows r)).data j)
            = false ↔ j = COLS - 1) := by
      intro j hj
      rw [Finset.mem_range] at hj
      simp only [rowFormat, if_pos hj]
      exact dataTemplateWord_oe COLS j
    simp only [hrw]
    rw [Finset.filter_congr key, Finset.filter_eq']
    rw [if_pos (by rw [Finset.mem_range]; omega)]
    simp
  · have hj : COLS - 1 < COLS := by omega
    simp only [hrw, rowFormat, if_pos hj]
    exact (dataTemplateWord_oe COLS (COLS - 1)).2 rfl
  · intro j hj hne
    simp only [hrw, rowFormat, if_pos hj]
    cases hOE : outputEnableBit (dataTemplateWord COLS false j)
    · exact absurd ((dataTemplateWord_oe COLS j).1 hOE) hne
    · rfl
  · intro j hj
    simp only [hrw, rowFormat, if_pos hj]
    exact ⟨dataTemplateWord_latch COLS j false,
      fun k hk => dataTemplateWord_low COLS j k false hk⟩

theorem C5_format_control_invariants_witness :
    rowAddressField
        (((fbFormat 64 16 7 false zeroBuffer).frames 0 |>.rows 5).address 2) = 5 :=
  ((C5_format_control_invariants 64 16 7 zeroBuffer (by decide) (by decide)
    0 (by decide) 5 (by decide)).1) 2 (by decide)

lemma readback_frameSetPixel (NROWS : ℕ) (esp32 : Bool) (y x : ℕ)
    (red green blue : Bool) (f : Frame) :
    pixelRed NROWS esp32 (frameSetPixel NROWS esp32 y x red green blue f) y x = red
    ∧ pixelGreen NROWS esp32 (frameSetPixel NROWS esp32 y x red green blue f) y x
        = green
    ∧ pixelBlue NROWS esp32 (frameSetPixel NROWS esp32 y x red green blue f) y x
        = blue := by
  unfold pixelRed pixelGreen pixelBlue frameSetPixel subRowIndex
  by_cases hy : y < NROWS <;>
    simp only [hy, if_true, if_false, ite_true, ite_false, if_pos rfl]
  · simp only [rowSetColor0, Function.update_same]
    exact set_color0_bits_color _ red green blue
  · simp only [rowSetColor1, Function.update_same]
    exact set_color1_bits_color _ red green blue

/-- C1: after `set_pixel` at an in-bounds point, for every frame index
`n < FRAME_COUNT` the channel bit of that sub-pixel in frame `n` is set iff
the 8-bit channel value is at least `(n+1) * 256/2^BITS`; equivalently iff
`n < frames_on(value) = value >> (8 - BITS)`. -/
theorem C1_set_pixel_bcm_threshold
    (ROWS COLS NROWS BITS FRAME_COUNT : ℕ) (esp32 : Bool) (fb : DmaFrameBuffer)
    (x y n : ℕ) (c : Color)
    (hB1 : 1 ≤ BITS) (hB8 : BITS ≤ 8) (hROWS : ROWS = 2 * NROWS)
    (hFC : FRAME_COUNT = 2 ^ BITS - 1) (hr8 : c.r < 256) (hg8 : c.g < 256)
    (hb8 : c.b < 256) (hx : x < COLS) (hy : y < ROWS) (hn : n < FRAME_COUNT) :
    (pixelRed NROWS esp32
        ((setPixel ROWS COLS NROWS BITS FRAME_COUNT esp32
          ((x : ℤ), (y : ℤ)) c fb).frames n) y x = true
      ↔ (n + 1) * (256 / 2 ^ BITS) ≤ c.r)
    ∧ (pixelRed NROWS esp32
        ((setPixel ROWS COLS NROWS BITS FRAME_COUNT esp32
          ((x : ℤ), (y : ℤ)) c fb).frames n) y x = true
      ↔ n < frames_on BITS c.r)
    ∧ (pixelGreen NROWS esp32
        ((setPixel ROWS COLS NROWS BITS FRAME_COUNT esp32
          ((x : ℤ), (y : ℤ)) c fb).frames n) y x = true
      ↔ (n + 1) * (256 / 2 ^ BITS) ≤ c.g)
    ∧ (pixelGreen NROWS esp32
        ((setPixel ROWS COLS NROWS BITS FRAME_COUNT esp32
          ((x : ℤ), (y : ℤ)) c fb).frames n) y x = true
      ↔ n < frames_on BITS c.g)
    ∧ (pixelBlue NROWS esp32
        ((setPixel ROWS COLS NROWS BITS FRAME_COUNT esp32
          ((x : ℤ), (y : ℤ)) c fb).frames n) y x = true
      ↔ (n + 1) * (256 / 2 ^ BITS) ≤ c.b)
    ∧ (pixelBlue NROWS esp32
        ((setPixel ROWS COLS NROWS BITS FRAME_COUNT esp32
          ((x : ℤ), (y : ℤ)) c fb).frames n) y x = true
      ↔ n < frames_on BITS c.b) := by
  have hset : setPixel ROWS COLS NROWS BITS FRAME_COUNT esp32
      ((x : ℤ), (y : ℤ)) c fb
      = setPixelInternal ROWS COLS NROWS BITS FRAME_COUNT esp32 x y c fb := by
    unfold setPixel
    rw [if_neg (by simp)]
    simp
  have hframe : (setPixelInternal ROWS COLS NROWS BITS FRAME_COUNT esp32
        x y c fb).frames n
      = frameSetPixel NROWS esp32 y x
          (decide (n < frames_on BITS c.r)) (decide (n < frames_on BITS c.g))
          (decide (n < frames_on BITS c.b)) (fb.frames n) := by
    unfold setPixelInternal
    rw [if_neg (by omega)]
    simp [hn]
  have hrd := readback_frameSetPixel NROWS esp32 y x
    (decide (n < frames_on BITS c.r)) (decide (n < frames_on BITS c.g))
    (decide (n < frames_on BITS c.b)) (fb.frames n)
  rw [hset]
  refine ⟨?_, ?_, ?_, ?_, ?_, ?_⟩ <;> rw [hframe]
  · rw [hrd.1, decide_eq_true_eq]
    exact lt_frames_on_iff BITS n c.r hB1 hB8
  · rw [hrd.1, decide_eq_true_eq]
  · rw [hrd.2.1, decide_eq_true_eq]
    exact lt_frames_on_iff BITS n c.g hB1 hB8
  · rw [hrd.2.1, decide_eq_true_eq]
  · rw [hrd.2.2, decide_eq_true_eq]
    exact lt_frames_on_iff BITS n c.b hB1 hB8
  · rw [hrd.2.2, decide_eq_true_eq]

theorem C1_set_pixel_bcm_threshold_witness :
    pixelRed 16 false
        ((setPixel 32 64 16 3 7 false ((10 : ℤ), (5 : ℤ)) ⟨96, 0, 0⟩
          zeroBuffer).frames 2) 5 10 = true
      ↔ (2 + 1) * (256 / 2 ^ 3) ≤ 96 :=
  (C1_set_pixel_bcm_threshold 32 64 16 3 7 false zeroBuffer 10 5 2 ⟨96, 0, 0⟩
    (by decide) (by decide) (by decide) (by decide) (by decide) (by decide)
    (by decide) (by decide) (by decide) (by decide)).1

/-- C4: `set_pixel` with any out-of-range coordinate (negative or beyond
COLS/ROWS) leaves the buffer unchanged; each out-of-range element processed by
`draw_iter` (whose i32 coordinates are cast `as usize`) is likewise a no-op;
`draw_iter` always returns Ok, and its error type Infallible is uninhabited. -/
theorem C4_out_of_range_silent_noop
    (ROWS COLS NROWS BITS FRAME_COUNT : ℕ) (esp32 : Bool) :
    (∀ (p : ℤ × ℤ) (c : Color) (fb : DmaFrameBuffer),
      p.1 < 0 ∨ p.2 < 0 ∨ (COLS : ℤ) ≤ p.1 ∨ (ROWS : ℤ) ≤ p.2 →
      setPixel ROWS COLS NROWS BITS FRAME_COUNT esp32 p c fb = fb)
    ∧ (∀ (px py : ℤ) (c : Color) (fb : DmaFrameBuffer),
      -(2 ^ 31) ≤ px → px < 2 ^ 31 → -(2 ^ 31) ≤ py → py < 2 ^ 31 →
      COLS ≤ 2 ^ 32 → ROWS ≤ 2 ^ 32 →
      px < 0 ∨ py < 0 ∨ (COLS : ℤ) ≤ px ∨ (ROWS : ℤ) ≤ py →
      setPixelInternal ROWS COLS NROWS BITS FRAME_COUNT esp32
        (usizeOfI32 px) (usizeOfI32 py) c fb = fb)
    ∧ (∀ (pixels : List ((ℤ × ℤ) × Color)) (fb : DmaFrameBuffer),
      ∃ result, drawIter ROWS COLS NROWS BITS FRAME_COUNT esp32 pixels fb
        = Except.ok result)
    ∧ (Infallible → False) := by
  refine ⟨?_, ?_, ?_, ?_⟩
  · intro p c fb h
    unfold setPixel
    by_cases hneg : p.1 < 0 ∨ p.2 < 0
    · rw [if_pos hneg]
    · rw [if_neg hneg]
      unfold setPixelInternal
      rw [if_pos (by omega)]
  · intro px py c fb hp1 hp2 hp3 hp4 hcols hrows h
    unfold setPixelInternal
    rw [if_pos]
    unfold usizeOfI32
    omega
  · intro pixels fb
    exact ⟨_, rfl⟩
  · intro e
    exact Empty.elim e

theorem C4_out_of_range_silent_noop_witness :
    setPixel 32 64 16 3 7 false ((-1 : ℤ), (5 : ℤ)) ⟨255, 0, 0⟩ zeroBuffer
      = zeroBuffer :=
  (C4_out_of_range_silent_noop 32 64 16 3 7 false).1 ((-1 : ℤ), (5 : ℤ))
    ⟨255, 0, 0⟩ zeroBuffer (Or.inl (by decide))

/-- Scenario buffer of spec §8: a fresh 32×64, 3-bit latched buffer after
setting pixel (10,5) to RGB(255,0,0). -/
def scenarioFb1 : DmaFrameBuffer :=
  setPixel 32 64 16 3 7 false ((10 : ℤ), (5 : ℤ)) ⟨255, 0, 0⟩ (fbNew 64 16 7 false)

/-- The scenario buffer after overwriting the same pixel with RGB(128,128,128). -/
def scenarioFb2 : DmaFrameBuffer :=
  setPixel 32 64 16 3 7 false ((10 : ℤ), (5 : ℤ)) ⟨128, 128, 128⟩ scenarioFb1

/-- C7: with ROWS=32, COLS=64, BITS=3 (NROWS=16, FRAME_COUNT=7), after setting
(10,5) to RGB(255,0,0) the red bit of row 5's column-10 sub-pixel is set in
all 7 frames with green and blue clear; after overwriting with
RGB(128,128,128), frames 0-3 have all three bits set and frames 4-6 all
clear — the overwrite replaces the previous value. -/
theorem C7_end_to_end_scenario :
    (∀ n, n < 7 →
      pixelRed 16 false (scenarioFb1.frames n) 5 10 = true
      ∧ pixelGreen 16 false (scenarioFb1.frames n) 5 10 = false
      ∧ pixelBlue 16 false (scenarioFb1.frames n) 5 10 = false)
    ∧ (∀ n, n < 7 → n < 4 →
      pixelRed 16 false (scenarioFb2.frames n) 5 10 = true
      ∧ pixelGreen 16 false (scenarioFb2.frames n) 5 10 = true
      ∧ pixelBlue 16 false (scenarioFb2.frames n) 5 10 = true)
    ∧ (∀ n, n < 7 → 4 ≤ n →
      pixelRed 16 false (scenarioFb2.frames n) 5 10 = false
      ∧ pixelGreen 16 false (scenarioFb2.frames n) 5 10 = false
      ∧ pixelBlue 16 false (scenarioFb2.frames n) 5 10 = false) := by
  decide

theorem C7_end_to_end_scenario_witness :
    pixelRed 16 false (scenarioFb2.frames 4) 5 10 = false :=
  (C7_end_to_end_scenario.2.2 4 (by decide) (by decide)).1

/-! ### Tiling bijection (C2) -/

lemma remap_xy_def (PR PC TR TC x y : ℕ) :
    remap_xy PR PC TR TC x y =
      if (TR - y / PR - 1) % 2 = 1 then
        (PC * TR * TC - x - (TR - y / PR - 1) * (PC * TC) - 1, PR - 1 - y % PR)
      else ((TR - y / PR - 1) * (PC * TC) + x, y % PR) := rfl

lemma remap_inv_def (PR PC TR TC u v : ℕ) :
    remap_inv PR PC TR TC (u, v) =
      if (u / (PC * TC)) % 2 = 1 then
        (PC * TC - 1 - u % (PC * TC), (u / (PC * TC)) * PR + (PR - 1 - v))
      else (u % (PC * TC), (TR - 1 - u / (PC * TC)) * PR + v) := rfl

lemma band_div (m t s : ℕ) (hm : 1 ≤ m) (hs : s < m) :
    (t * m + s) / m = t ∧ (t * m + s) % m = s := by
  constructor
  · rw [mul_comm, Nat.mul_add_div hm, Nat.div_eq_of_lt hs, Nat.add_zero]
  · rw [mul_comm, Nat.mul_add_mod, Nat.mod_eq_of_lt hs]

lemma band_coord_lt (T V r x : ℕ) (hx : x < V) (hrT : r + 1 ≤ T) :
    r * V + x < T * V ∧ T * V - x - r * V - 1 < T * V := by
  have h2 : (r + 1) * V ≤ T * V := Nat.mul_le_mul_right V hrT
  have h3 : (r + 1) * V = r * V + V := by rw [add_one_mul]
  omega

lemma band_y_lt (T P b w : ℕ) (hb : b + 1 ≤ T) (hw : w < P) :
    b * P + w < P * T := by
  have h1 : (b + 1) * P ≤ T * P := Nat.mul_le_mul_right P hb
  have h2 : (b + 1) * P = b * P + P := by rw [add_one_mul]
  have h3 : P * T = T * P := mul_comm _ _
  omega

lemma mirror_decomp (T V r x : ℕ) (hx : x < V) (hrT : r + 1 ≤ T) :
    T * V - x - r * V - 1 = (T - 1 - r) * V + (V - 1 - x) := by
  have h1 : T - 1 - r = T - (r + 1) := by omega
  have h2 : (T - (r + 1)) * V = T * V - (r + 1) * V := by rw [Nat.sub_mul]
  have h3 : (r + 1) * V = r * V + V := by rw [add_one_mul]
  have h4 : (r + 1) * V ≤ T * V := Nat.mul_le_mul_right V hrT
  rw [h1, h2]
  omega

lemma mirror_recomp (T V b s : ℕ) (hs : s < V) (hbT : b + 1 ≤ T) :
    T * V - (V - 1 - s) - (T - b - 1) * V - 1 = b * V + s := by
  have h1 : T - b - 1 = T - (b + 1) := by omega
  have h2 : (T - (b + 1)) * V = T * V - (b + 1) * V := by rw [Nat.sub_mul]
  have h3 : (b + 1) * V ≤ T * V := Nat.mul_le_mul_right V hbT
  have h4 : (b + 1) * V = b * V + V := by rw [add_one_mul]
  rw [h1, h2]
  omega

lemma remap_xy_mem (PR PC TR TC x y : ℕ) (hPR : 1 ≤ PR) (hVC : 1 ≤ PC * TC)
    (hTR1 : 1 ≤ TR) (hx : x < PC * TC) (hy : y < PR * TR) :
    (remap_xy PR PC TR TC x y).1 < PC * TR * TC
    ∧ (remap_xy PR PC TR TC x y).2 < PR := by
  have hcm : PR * TR = TR * PR := mul_comm _ _
  have hq : y / PR < TR := (Nat.div_lt_iff_lt_mul hPR).2 (by omega)
  have hmod : y % PR < PR := Nat.mod_lt _ hPR
  have hFBC : PC * TR * TC = TR * (PC * TC) := by ring
  rw [remap_xy_def]
  obtain ⟨q, hq0⟩ : ∃ q, y / PR = q := ⟨_, rfl⟩
  obtain ⟨rr, hr0⟩ : ∃ rr, y % PR = rr := ⟨_, rfl⟩
  rw [hq0] at hq
  rw [hr0] at hmod
  rw [hq0, hr0]
  by_cases hpar : (TR - q - 1) % 2 = 1
  · rw [if_pos hpar]
    refine ⟨?_, ?_⟩
    · show PC * TR * TC - x - (TR - q - 1) * (PC * TC) - 1 < PC * TR * TC
      rw [hFBC]
      exact (band_coord_lt TR (PC * TC) (TR - q - 1) x hx (by omega)).2
    · show PR - 1 - rr < PR
      omega
  · rw [if_neg hpar]
    refine ⟨?_, ?_⟩
    · show (TR - q - 1) * (PC * TC) + x < PC * TR * TC
      rw [hFBC]
      exact (band_coord_lt TR (PC * TC) (TR - q - 1) x hx (by omega)).1
    · show rr < PR
      omega

lemma remap_inv_mem (PR PC TR TC u v : ℕ) (hPR : 1 ≤ PR) (hVC : 1 ≤ PC * TC)
    (hTR1 : 1 ≤ TR) (hu : u < PC * TR * TC) (hv : v < PR) :
    (remap_inv PR PC TR TC (u, v)).1 < PC * TC
    ∧ (remap_inv PR PC TR TC (u, v)).2 < PR * TR := by
  have hFBC : PC * TR * TC = TR * (PC * TC) := by ring
  have hb : u / (PC * TC) < TR := (Nat.div_lt_iff_lt_mul hVC).2 (by omega)
  have hs : u % (PC * TC) < PC * TC := Nat.mod_lt _ hVC
  rw [remap_inv_def]
  obtain ⟨b, hb0⟩ : ∃ b, u / (PC * TC) = b := ⟨_, rfl⟩
  obtain ⟨s, hs0⟩ : ∃ s, u % (PC * TC) = s := ⟨_, rfl⟩
  rw [hb0] at hb
  rw [hs0] at hs
  rw [hb0, hs0]
  by_cases hbpar : b % 2 = 1
  · rw [if_pos hbpar]
    refine ⟨?_, ?_⟩
    · show PC * TC - 1 - s < PC * TC
      omega
    · show b * PR + (PR - 1 - v) < PR * TR
      exact band_y_lt TR PR b (PR - 1 - v) (by omega) (by omega)
  · rw [if_neg hbpar]
    refine ⟨?_, ?_⟩
    · show s < PC * TC
      exact hs
    · show (TR - 1 - b) * PR + v < PR * TR
      exact band_y_lt TR PR (TR - 1 - b) v (by omega) hv

lemma remap_left_inv (PR PC TR TC x y : ℕ) (hPR : 1 ≤ PR) (hVC : 1 ≤ PC * TC)
    (hTR : TR % 2 = 1) (hx : x < PC * TC) (hy : y < PR * TR) :
    remap_inv PR PC TR TC (remap_xy PR PC TR TC x y) = (x, y) := by
  have hTR1 : 1 ≤ TR := by omega
  have hcm : PR * TR = TR * PR := mul_comm _ _
  have hq : y / PR < TR := (Nat.div_lt_iff_lt_mul hPR).2 (by omega)
  have hmod : y % PR < PR := Nat.mod_lt _ hPR
  have hdm : PR * (y / PR) + y % PR = y := Nat.div_add_mod y PR
  have hFBC : PC * TR * TC = TR * (PC * TC) := by ring
  rw [remap_xy_def]
  obtain ⟨q, hq0⟩ : ∃ q, y / PR = q := ⟨_, rfl⟩
  obtain ⟨rr, hr0⟩ : ∃ rr, y % PR = rr := ⟨_, rfl⟩
  rw [hq0] at hq
  rw [hr0] at hmod
  rw [hq0, hr0] at hdm
  rw [hq0, hr0]
  have hqr : q * PR + rr = y := by
    rw [mul_comm]
    exact hdm
  by_cases hpar : (TR - q - 1) % 2 = 1
  · rw [if_pos hpar, hFBC,
      mirror_decomp TR (PC * TC) (TR - q - 1) x hx (by omega),
      remap_inv_def,
      (band_div (PC * TC) (TR - 1 - (TR - q - 1)) (PC * TC - 1 - x)
        hVC (by omega)).1,
      (band_div (PC * TC) (TR - 1 - (TR - q - 1)) (PC * TC - 1 - x)
        hVC (by omega)).2,
      if_pos (show (TR - 1 - (TR - q - 1)) % 2 = 1 by omega),
      show PC * TC - 1 - (PC * TC - 1 - x) = x by omega,
      show PR - 1 - (PR - 1 - rr) = rr by omega,
      show TR - 1 - (TR - q - 1) = q by omega,
      hqr]
  · rw [if_neg hpar, remap_inv_def,
      (band_div (PC * TC) (TR - q - 1) x hVC hx).1,
      (band_div (PC * TC) (TR - q - 1) x hVC hx).2,
      if_neg hpar,
      show TR - 1 - (TR - q - 1) = q by omega,
      hqr]

lemma remap_right_inv (PR PC TR TC u v : ℕ) (hPR : 1 ≤ PR) (hVC : 1 ≤ PC * TC)
    (hTR : TR % 2 = 1) (hu : u < PC * TR * TC) (hv : v < PR) :
    remap_xy PR PC TR TC (remap_inv PR PC TR TC (u, v)).1
      (remap_inv PR PC TR TC (u, v)).2 = (u, v) := by
  have hTR1 : 1 ≤ TR := by omega
  have hFBC : PC * TR * TC = TR * (PC * TC) := by ring
  have hb : u / (PC * TC) < TR := (Nat.div_lt_iff_lt_mul hVC).2 (by omega)
  have hs : u % (PC * TC) < PC * TC := Nat.mod_lt _ hVC
  have hdm : PC * TC * (u / (PC * TC)) + u % (PC * TC) = u := Nat.div_add_mod u _
  rw [remap_inv_def]
  obtain ⟨b, hb0⟩ : ∃ b, u / (PC * TC) = b := ⟨_, rfl⟩
  obtain ⟨s, hs0⟩ : ∃ s, u % (PC * TC) = s := ⟨_, rfl⟩
  rw [hb0] at hb
  rw [hs0] at hs
  rw [hb0, hs0] at hdm
  rw [hb0, hs0]
  have hbs : b * (PC * TC) + s = u := by
    rw [mul_comm]
    exact hdm
  by_cases hbpar : b % 2 = 1
  · rw [if_pos hbpar]
    show remap_xy PR PC TR TC (PC * TC - 1 - s) (b * PR + (PR - 1 - v)) = (u, v)
    rw [remap_xy_def,
      (band_div PR b (PR - 1 - v) hPR (by omega)).1,
      (band_div PR b (PR - 1 - v) hPR (by omega)).2,
      if_pos (show (TR - b - 1) % 2 = 1 by omega),
      hFBC,
      mirror_recomp TR (PC * TC) b s hs (by omega),
      hbs,
      show PR - 1 - (PR - 1 - v) = v by omega]
  · rw [if_neg hbpar]
    show remap_xy PR PC TR TC s ((TR - 1 - b) * PR + v) = (u, v)
    rw [remap_xy_def,
      (band_div PR (TR - 1 - b) v hPR hv).1,
      (band_div PR (TR - 1 - b) v hPR hv).2,
      show TR - (TR - 1 - b) - 1 = b by omega,
      if_neg hbpar,
      hbs]

/-- C2 counterexample: with PANEL_ROWS=1, PANEL_COLS=1, TILE_ROWS=2,
TILE_COLS=1 the virtual points (0,0) and (0,1) both map to physical (0,0),
so for even TILE_ROWS the raster scan is not a bijection as the claim states
for every TILE_ROWS ≥ 1. -/
theorem C2_remap_bijection_counterexample :
    remap_xy 1 1 2 1 0 0 = remap_xy 1 1 2 1 0 1
    ∧ ((0, 0) : ℕ × ℕ) ∈ virtCanvas 1 1 2 1
    ∧ ((0, 1) : ℕ × ℕ) ∈ virtCanvas 1 1 2 1
    ∧ ¬ Set.BijOn (fun p : ℕ × ℕ => remap_xy 1 1 2 1 p.1 p.2)
        (virtCanvas 1 1 2 1) (fbGrid 1 1 2 1) := by
  refine ⟨by decide, ⟨by decide, by decide⟩, ⟨by decide, by decide⟩, ?_⟩
  intro hbij
  have h := hbij.injOn (show ((0, 0) : ℕ × ℕ) ∈ virtCanvas 1 1 2 1 from
      ⟨by decide, by decide⟩)
    (show ((0, 1) : ℕ × ℕ) ∈ virtCanvas 1 1 2 1 from ⟨by decide, by decide⟩)
    (by decide)
  exact absurd h (by decide)

/-- C2 (amended): for odd TILE_ROWS (and PANEL_ROWS, PANEL_COLS,
TILE_COLS ≥ 1), `remap_xy` restricted to the virtual canvas is a bijection
onto the physical FB_COLS × FB_ROWS grid, with even bands mapping straight and
odd bands mirrored in both axes. -/
theorem C2_remap_bijection_odd_tile_rows
    (PR PC TR TC : ℕ) (hPR : 1 ≤ PR) (hPC : 1 ≤ PC) (hTC : 1 ≤ TC)
    (hTR : TR % 2 = 1) :
    Set.BijOn (fun p : ℕ × ℕ => remap_xy PR PC TR TC p.1 p.2)
      (virtCanvas PR PC TR TC) (fbGrid PR PC TR TC)
    ∧ (∀ x y, x < PC * TC → y < PR * TR →
        ((TR - y / PR - 1) % 2 = 0 →
          remap_xy PR PC TR TC x y
            = ((TR - y / PR - 1) * (PC * TC) + x, y % PR))
        ∧ ((TR - y / PR - 1) % 2 = 1 →
          remap_xy PR PC TR TC x y
            = (PC * TR * TC - x - (TR - y / PR - 1) * (PC * TC) - 1,
               PR - 1 - y % PR))) := by
  have hVC : 1 ≤ PC * TC := Nat.mul_le_mul hPC hTC
  have hTR1 : 1 ≤ TR := by omega
  constructor
  · have hinv : Set.InvOn (remap_inv PR PC TR TC)
        (fun p : ℕ × ℕ => remap_xy PR PC TR TC p.1 p.2)
        (virtCanvas PR PC TR TC) (fbGrid PR PC TR TC) := by
      constructor
      · rintro ⟨x, y⟩ ⟨hx, hy⟩
        exact remap_left_inv PR PC TR TC x y hPR hVC hTR hx hy
      · rintro ⟨u, v⟩ ⟨hu, hv⟩
        exact remap_right_inv PR PC TR TC u v hPR hVC hTR hu hv
    refine hinv.bijOn ?_ ?_
    · rintro ⟨x, y⟩ ⟨hx, hy⟩
      exact remap_xy_mem PR PC TR TC x y hPR hVC hTR1 hx hy
    · rintro ⟨u, v⟩ ⟨hu, hv⟩
      exact remap_inv_mem PR PC TR TC u v hPR hVC hTR1 hu hv
  · intro x y hx hy
    constructor
    · intro hpar
      rw [remap_xy_def, if_neg (by omega)]
    · intro hpar
      rw [remap_xy_def, if_pos hpar]

theorem C2_remap_bijection_odd_tile_rows_witness :
    Set.BijOn (fun p : ℕ × ℕ => remap_xy 32 64 3 3 p.1 p.2)
      (virtCanvas 32 64 3 3) (fbGrid 32 64 3 3) :=
  (C2_remap_bijection_odd_tile_rows 32 64 3 3 (by decide) (by decide)
    (by decide) (by decide)).1

end Hub75
